import Mathlib

set_option maxHeartbeats 1000000

/-!
Shallow embedding of the `reinstall` module of shallow-backup
(src/shallow_backup/reinstall.py) and verification of its specified
properties.  Paths and strings are modelled as `List Char`; the external
collaborators (config loader, condition evaluator, filesystem, shell) are
abstracted as explicit environments; printing and filesystem mutation are
modelled as an event trace.
-/

abbrev Str := List Char

/-- The single-quote character (used by shlex.quote). -/
def squo : Char := Char.ofNat 39

/-- The double-quote character (used by shlex.quote). -/
def dquo : Char := Char.ofNat 34

/-- Python `posixpath.join(a, b)` for two arguments:
if `b` is absolute, return `b`; else if `a` is empty or ends with the
separator, return `a + b`; else `a + '/' + b`. -/
def pyJoin (a b : Str) : Str :=
  if ['/'].isPrefixOf b then b
  else if a = [] ∨ ['/'].isSuffixOf a then a ++ b
  else a ++ '/' :: b

/-- Python `s.split('/')`: split a string on the separator, keeping empty
chunks (so the result is never empty). -/
def splitSlash : Str → List Str
  | [] => [[]]
  | c :: cs =>
    if c = '/' then [] :: splitSlash cs
    else
      match splitSlash cs with
      | [] => [[c]]
      | p :: ps => (c :: p) :: ps

/-- The root of a POSIX `pathlib.PurePath`: `'//'` for a path beginning with
exactly two separators, `'/'` for any other absolute path, empty otherwise. -/
def posixRoot (s : Str) : Str :=
  if ['/', '/'].isPrefixOf s ∧ ¬ (['/', '/', '/'].isPrefixOf s) then ['/', '/']
  else if ['/'].isPrefixOf s then ['/']
  else []

/-- The parsed components of a POSIX `pathlib.PurePath`: the separator-split
chunks with empty chunks and `.` chunks removed. -/
def posixParts (s : Str) : List Str :=
  (splitSlash s).filter (fun p => !(p.isEmpty) && !(p == ['.']))

/-- Rebuild the string form of a `PurePosixPath` from a root and parts
(`'.'` when both are empty). -/
def pathStrOf (root : Str) (parts : List Str) : Str :=
  if root = [] ∧ parts = [] then ['.'] else root ++ List.intercalate ['/'] parts

/-- `str(PurePosixPath(s))`: the normalized string form of a path. -/
def pathOf (s : Str) : Str := pathStrOf (posixRoot s) (posixParts s)

/-- `str(PurePosixPath(s).parent)`: drop the last component. -/
def pathParent (s : Str) : Str :=
  pathStrOf (posixRoot s) ((posixParts s).dropLast)

/-- Scanner for Python `str.replace` with a non-empty pattern `old`: at skip
count 0, if `old` matches at the head, emit `new` and skip the remainder of
the match; otherwise copy one character.  Non-overlapping, left to right. -/
def replGo (old new : Str) : Nat → Str → Str
  | _, [] => []
  | Nat.succ k, _ :: cs => replGo old new k cs
  | 0, c :: cs =>
    if old.isPrefixOf (c :: cs) then new ++ replGo old new (old.length - 1) cs
    else c :: replGo old new 0 cs

/-- Python `s.replace(old, new)` (all occurrences, non-overlapping, left to
right; with an empty `old`, `new` is inserted around every character). -/
def strReplace (s old new : Str) : Str :=
  if old.isEmpty then new ++ s.flatMap (fun c => c :: new)
  else replGo old new 0 s

/-- Does `pat` occur as a contiguous substring of `s`? -/
def containsSub (s pat : Str) : Bool :=
  match s with
  | [] => pat.isEmpty
  | _ :: t => pat.isPrefixOf s || containsSub t pat

/-- A character `shlex.quote` leaves untouched: ASCII alphanumeric, `_`,
or one of `@ % + = : , . / -`. -/
def shlexSafe (c : Char) : Bool :=
  decide (('a' ≤ c ∧ c ≤ 'z') ∨ ('A' ≤ c ∧ c ≤ 'Z') ∨ ('0' ≤ c ∧ c ≤ '9') ∨
    c = '_' ∨ c = '@' ∨ c = '%' ∨ c = '+' ∨ c = '=' ∨ c = ':' ∨ c = ',' ∨
    c = '.' ∨ c = '/' ∨ c = '-')

/-- What `shlex.quote` substitutes for each single quote inside a quoted
string: `'"'"'`. -/
def shlexEscape : Str := [squo, dquo, squo, dquo, squo]

/-- Python `shlex.quote(s)`: empty becomes `''`; a fully safe string is
returned unchanged; otherwise wrap in single quotes, escaping inner ones. -/
def shlexQuote (s : Str) : Str :=
  if s = [] then [squo, squo]
  else if s.all shlexSafe then s
  else squo :: (strReplace s [squo] shlexEscape ++ [squo])

-- A few sanity checks that the primitives compute as in Python.
example : pyJoin ("/backup").toList (":etc/hosts").toList = ("/backup/:etc/hosts").toList := by decide
example : pathOf ("/home/u//.vimrc").toList = ("/home/u/.vimrc").toList := by decide
example : pathParent ("/a/b").toList = ("/a").toList := by decide
example : pathParent ("b").toList = ['.'] := by decide
example : strReplace ("/b/x/b").toList ("/b").toList ("/h/").toList = ("/h//x/h/").toList := by decide
example : shlexQuote ("a b").toList = squo :: ("a b").toList ++ [squo] := by decide
example : shlexQuote ("ab.ttf").toList = ("ab.ttf").toList := by decide

/-! ## Observable effects

Every print and every filesystem/process mutation performed by the module is
recorded as an event. -/

/-- One observable action of the reinstall module. -/
inductive Event where
  /-- `print_dry_run_copy_info(source, dest)`. -/
  | dryRunCopy (src dst : Str)
  /-- The destination-parent-is-a-file diagnostic (reinstall.py lines 83-85),
  naming the conflicting parent and the destination. -/
  | structuralError (parent dst : Str)
  /-- `safe_mkdir(dot_dest.parent)`. -/
  | mkdirCall (dir : Str)
  /-- `copy(dot_source, dot_dest)` was attempted. -/
  | copyAttempt (src dst : Str)
  /-- `print_red_bold(msg)`. -/
  | printRedBold (msg : Str)
  /-- `print_yellow_bold(msg)`. -/
  | printYellowBold (msg : Str)
  /-- `run_cmd(cmd)`: a shell command was executed. -/
  | runCmd (cmd : Str)
  /-- `print_pkg_mgr_reinstall(pm)`. -/
  | pkgMgrReinstall (pm : Str)
  /-- The permission-error summary paragraph, which embeds the number of
  distinct offending paths (reinstall.py lines 104-106). -/
  | permSummary (n : Nat)
  /-- `print_list_pretty(items)`. -/
  | printListPretty (items : List Str)
  /-- `copytree(src, dst)`. -/
  | copyTreeCall (src dst : Str)
  /-- `copyfile(src, dst)`. -/
  | copyFileCall (src dst : Str)
  deriving DecidableEq

/-- Events that mutate the filesystem or run a process, as opposed to
printing. -/
def isMutation : Event → Bool
  | Event.mkdirCall _ => true
  | Event.copyAttempt _ _ => true
  | Event.runCmd _ => true
  | Event.copyTreeCall _ _ => true
  | Event.copyFileCall _ _ => true
  | _ => false

/-! ## The dotfile pipeline (`reinstall_dots_sb`) -/

/-- A dotfile rule from the config: `options.get("reinstall_condition", "")`
is modelled by an optional condition string. -/
structure DotRule where
  reinstall_condition : Option Str

/-- External collaborators used while collecting the files to reinstall:
`evaluate_condition`, `os.path.isfile`, and `get_abs_path_subfiles`. -/
structure CollectEnv where
  evalCondition : Str → Str → Bool
  isFile : Str → Bool
  subfiles : Str → List Str

/-- Lines 46-47: an absolute identifier has its leading `/` replaced by the
sentinel `:`. -/
def encodeDot (p : Str) : Str :=
  if ['/'].isPrefixOf p then ':' :: p.drop 1 else p

/-- One iteration of the rule loop (lines 36-54): skip the rule if its
condition fails, otherwise encode it, join it to the backup root, and expand
it to a file or to its subfiles. -/
def collectStep (env : CollectEnv) (dotsPath : Str) (acc : List Str)
    (entry : Str × DotRule) : List Str :=
  if env.evalCondition (entry.2.reinstall_condition.getD []) entry.1 then
    let realPath := pyJoin dotsPath (encodeDot entry.1)
    if env.isFile realPath then acc ++ [realPath] else acc ++ env.subfiles realPath
  else acc

/-- Lines 35-54: the full list `dotfiles_to_reinstall`. -/
def dotfilesToReinstall (env : CollectEnv) (dotsPath : Str)
    (config : List (Str × DotRule)) : List Str :=
  config.foldl (collectStep env dotsPath) []

/-- Lines 62-68: the raw destination string for one discovered source path.
If the source starts with `join(dots_path, ":")` the destination is `/` plus
the remainder; otherwise every occurrence of `dots_path` in the source is
replaced by `home_path + "/"`. -/
def destStr (dotsPath homePath source : Str) : Str :=
  if (pyJoin dotsPath [':']).isPrefixOf source then
    '/' :: source.drop (pyJoin dotsPath [':']).length
  else strReplace source dotsPath (homePath ++ ['/'])

/-- Line 69: the `(Path(source), Path(dest))` pairs. -/
def resolvePairs (dotsPath homePath : Str) (sources : List Str) :
    List (Str × Str) :=
  sources.map (fun s => (pathOf s, pathOf (destStr dotsPath homePath s)))

/-- Outcome of one `shutil.copy` call, as seen by the `try` block of
lines 90-97. -/
inductive CopyOutcome where
  | ok
  /-- `PermissionError` with its `filename` attribute. -/
  | permError (filename : Str)
  /-- `FileNotFoundError`, printed via its message. -/
  | notFound (errMsg : Str)
  /-- Any other exception: uncaught, propagates. -/
  | otherError (errMsg : Str)
  deriving DecidableEq

/-- External collaborators of the copy loop: `os.path.isfile`, the result of
`shutil.copy`, and `find_path_for_permission_error_reporting`. -/
structure DotsEnv where
  isFile : Str → Bool
  copyOutcome : Str → Str → CopyOutcome
  findPathForReport : Str → Str

/-- The mutable state of one `reinstall_dots_sb` run: the event trace,
`reinstallation_error_count`, and `files_with_permission_errors` (a set,
modelled as a deduplicated list in insertion order). -/
structure DotsState where
  events : List Event
  errorCount : Nat
  permErrors : List Str
  deriving DecidableEq

/-- Python `set.add`: insert if not already present. -/
def setAdd (s : List Str) (x : Str) : List Str :=
  if x ∈ s then s else s ++ [x]

/-- Lines 73-97, one pair: in dry-run just report; otherwise reject a
file-parent, else mkdir, attempt the copy, and absorb exactly
`PermissionError` and `FileNotFoundError`; anything else propagates. -/
def copyPairStep (env : DotsEnv) (dryRun : Bool) (st : DotsState)
    (p : Str × Str) : Except (Str × DotsState) DotsState :=
  if dryRun then
    Except.ok { st with events := st.events ++ [Event.dryRunCopy p.1 p.2] }
  else
    let parentDir := pathParent p.2
    if env.isFile parentDir then
      Except.ok { st with
        events := st.events ++ [Event.structuralError parentDir p.2],
        errorCount := st.errorCount + 1 }
    else
      let st1 := { st with
        events := st.events ++ [Event.mkdirCall parentDir, Event.copyAttempt p.1 p.2] }
      match env.copyOutcome p.1 p.2 with
      | CopyOutcome.ok => Except.ok st1
      | CopyOutcome.permError f =>
        Except.ok { st1 with
          permErrors := setAdd st1.permErrors (env.findPathForReport f) }
      | CopyOutcome.notFound m =>
        Except.ok { st1 with
          events := st1.events ++ [Event.printRedBold (("ERROR: ").toList ++ m)] }
      | CopyOutcome.otherError e => Except.error (e, st1)

/-- The copy loop over all pairs; an uncaught exception aborts it. -/
def copyLoop (env : DotsEnv) (dryRun : Bool) :
    List (Str × Str) → DotsState → Except (Str × DotsState) DotsState
  | [], st => Except.ok st
  | p :: ps, st =>
    match copyPairStep env dryRun st p with
    | Except.ok st2 => copyLoop env dryRun ps st2
    | Except.error e => Except.error e

/-- Python string `<=`: lexicographic comparison by code point. -/
def lexLe : Str → Str → Bool
  | [], _ => true
  | _ :: _, [] => false
  | a :: as, b :: bs => if a < b then true else if b < a then false else lexLe as bs

/-- Insert into a `lexLe`-sorted list. -/
def insertLex (x : Str) : List Str → List Str
  | [] => [x]
  | y :: ys => if lexLe x y then x :: y :: ys else y :: insertLex x ys

/-- Python `sorted` on a list of strings. -/
def sortLex : List Str → List Str
  | [] => []
  | x :: xs => insertLex x (sortLex xs)

/-- Lines 99-107: the end-of-batch report. -/
def dotsReport (st : DotsState) : List Event :=
  (if st.errorCount ≠ 0 then
    [Event.printRedBold ("\nSome errors which require manual resolution detected.").toList]
  else [])
  ++ (if st.permErrors.length ≠ 0 then
    [Event.permSummary st.permErrors.length,
     Event.printListPretty (sortLex st.permErrors)]
  else [])

/-- `reinstall_dots_sb` after the directory-nonempty precondition: collect,
resolve, copy, report. -/
def reinstall_dots_sb (cEnv : CollectEnv) (dEnv : DotsEnv)
    (dotsPath homePath : Str) (config : List (Str × DotRule)) (dryRun : Bool) :
    Except (Str × DotsState) DotsState :=
  match copyLoop dEnv dryRun
      (resolvePairs dotsPath homePath (dotfilesToReinstall cEnv dotsPath config))
      ⟨[], 0, []⟩ with
  | Except.ok st => Except.ok { st with events := st.events ++ dotsReport st }
  | Except.error e => Except.error e

/-! ## Fonts, configs, packages -/

/-- `font.split("/")[-1]`. -/
def lastSlashComponent (f : Str) : Str := (splitSlash f).getLastD []

/-- Lines 118-124, one font: the destination is the shlex-quoted join of the
fonts directory and the font's basename, and the copy receives both
arguments quoted (the destination hence quoted twice). -/
def fontStep (fontsDir : Str) (dryRun : Bool) (font : Str) : List Event :=
  let destPath := shlexQuote (pyJoin fontsDir (lastSlashComponent font))
  if dryRun then [Event.dryRunCopy font destPath]
  else [Event.copyFileCall (shlexQuote font) (shlexQuote destPath)]

/-- `reinstall_fonts_sb` after the precondition, over the discovered fonts. -/
def reinstall_fonts_sb (fontsDir : Str) (dryRun : Bool) (fonts : List Str) :
    List Event :=
  fonts.flatMap (fontStep fontsDir dryRun)

/-- Filesystem tests used by `reinstall_configs_sb`. -/
structure ConfigEnv where
  isDir : Str → Bool
  isFile : Str → Bool

/-- Lines 134-145, one `config_mapping` entry `(dest_path, backup_loc)`:
both paths are shlex-quoted, then the quoted source is tested with
`os.path.isdir` / `os.path.isfile`; if neither matches nothing happens. -/
def configStep (env : ConfigEnv) (configsPath : Str) (dryRun : Bool)
    (entry : Str × Str) : List Event :=
  let destPath := shlexQuote entry.1
  let sourcePath := shlexQuote (pyJoin configsPath entry.2)
  if dryRun then [Event.dryRunCopy sourcePath destPath]
  else if env.isDir sourcePath then [Event.copyTreeCall sourcePath destPath]
  else if env.isFile sourcePath then [Event.copyFileCall sourcePath destPath]
  else []

/-- `reinstall_configs_sb` after the precondition. -/
def reinstall_configs_sb (env : ConfigEnv) (configsPath : Str) (dryRun : Bool)
    (mapping : List (Str × Str)) : List Event :=
  mapping.flatMap (configStep env configsPath dryRun)

/-- The fixed list of recognized package manager identifiers
(lines 168-177). -/
def managerNames : List Str :=
  [("gem").toList, ("cargo").toList, ("npm").toList, ("pip").toList,
   ("pip3").toList, ("brew").toList, ("vscode").toList, ("macports").toList]

/-- `file.split("_")[0]`. -/
def mgrToken (f : Str) : Str := f.takeWhile (fun c => c ≠ '_')

/-- `file.split("_")[0].replace("-", " ")`: the string actually tested for
membership in `managerNames` (line 167). -/
def mgrForCheck (f : Str) : Str := strReplace (mgrToken f) ['-'] [' ']

/-- Lines 165-178: the set `package_mgrs` collected from the filenames in
the packages directory. -/
def packageMgrs (files : List Str) : List Str :=
  files.foldl
    (fun acc f => if mgrForCheck f ∈ managerNames then setAdd acc (mgrToken f) else acc)
    []

/-- Lines 153-159, `run_cmd_if_no_dry_run` (renamed for Lean): in dry-run,
print the command and return 0; otherwise execute it and return its code. -/
def runCmdIfNoDryRun (runRes : Str → Int) (command : Str) (dryRun : Bool) :
    List Event × Int :=
  if dryRun then ([Event.printYellowBold ('$' :: ' ' :: command)], 0)
  else ([Event.runCmd command], runRes command)

/-- Lines 187-219: the per-manager reinstallation commands. -/
def pmEvents (runRes : Str → Int) (vscodeList : List Str) (packagesPath : Str)
    (dryRun : Bool) (pm : Str) : List Event :=
  if pm = ("brew").toList then
    Event.pkgMgrReinstall pm ::
      (runCmdIfNoDryRun runRes
        (("brew bundle install --no-lock --file ").toList ++ packagesPath ++
          ("/brew_list.txt").toList) dryRun).1
  else if pm = ("npm").toList then
    Event.pkgMgrReinstall pm ::
      (runCmdIfNoDryRun runRes
        (("cat ").toList ++ packagesPath ++
          ("/npm_list.txt | xargs npm install -g").toList) dryRun).1
  else if pm = ("pip").toList then
    Event.pkgMgrReinstall pm ::
      (runCmdIfNoDryRun runRes
        (("pip install -r ").toList ++ packagesPath ++ ("/pip_list.txt").toList)
        dryRun).1
  else if pm = ("pip3").toList then
    Event.pkgMgrReinstall pm ::
      (runCmdIfNoDryRun runRes
        (("pip3 install -r ").toList ++ packagesPath ++ ("/pip3_list.txt").toList)
        dryRun).1
  else if pm = ("vscode").toList then
    Event.pkgMgrReinstall pm ::
      vscodeList.flatMap (fun pkg =>
        (runCmdIfNoDryRun runRes (("code --install-extension ").toList ++ pkg)
          dryRun).1)
  else if pm = ("macports").toList then
    [Event.printRedBold ("WARNING: Macports reinstallation is not supported.").toList]
  else if pm = ("gem").toList then
    Event.pkgMgrReinstall pm ::
      (runCmdIfNoDryRun runRes
        (("cat ").toList ++ packagesPath ++
          ("/gem_list.txt | xargs -L 1 gem install").toList) dryRun).1
  else if pm = ("cargo").toList then
    Event.pkgMgrReinstall pm ::
      (runCmdIfNoDryRun runRes
        (("cat ").toList ++ packagesPath ++
          ("/cargo_list.txt | xargs -L 1 cargo install").toList) dryRun).1
  else []

/-- `reinstall_packages_sb` after the precondition: infer the managers from
the directory listing, then run each manager's fixed command. -/
def reinstall_packages_sb (runRes : Str → Int) (vscodeList : List Str)
    (packagesPath : Str) (dryRun : Bool) (files : List Str) : List Event :=
  (packageMgrs files).flatMap (pmEvents runRes vscodeList packagesPath dryRun)

-- Sanity checks of the model on concrete data.
example : packageMgrs [("brew_list.txt").toList, ("unknownmgr_list.txt").toList]
    = [("brew").toList] := by decide
example : destStr ("/backup").toList ("/home/u").toList ("/backup/:etc/hosts").toList
    = ("/etc/hosts").toList := by decide
example : pathOf (destStr ("/backup").toList ("/home/u").toList ("/backup/.vimrc").toList)
    = ("/home/u/.vimrc").toList := by decide

/-! ## Helper lemmas about the string primitives -/

theorem isPrefixOf_append_self (a t : Str) : a.isPrefixOf (a ++ t) = true := by
  induction a with
  | nil => cases t <;> rfl
  | cons c cs ih => simp [List.isPrefixOf, ih]

theorem replGo_nil (old new : Str) (k : Nat) : replGo old new k [] = [] := by
  cases k <;> rfl

theorem replGo_succ (old new : Str) (k : Nat) (c : Char) (cs : Str) :
    replGo old new (k + 1) (c :: cs) = replGo old new k cs := rfl

theorem replGo_zero_cons (old new : Str) (c : Char) (cs : Str) :
    replGo old new 0 (c :: cs) =
      if old.isPrefixOf (c :: cs) then new ++ replGo old new (old.length - 1) cs
      else c :: replGo old new 0 cs := rfl

theorem replGo_skip (old new : Str) : ∀ (xs rest : Str),
    replGo old new xs.length (xs ++ rest) = replGo old new 0 rest := by
  intro xs
  induction xs with
  | nil => intro rest; rfl
  | cons x t ih =>
    intro rest
    rw [List.cons_append, List.length_cons, replGo_succ]
    exact ih rest

/-- Replacing when the pattern sits at the front consumes exactly the
pattern. -/
theorem strReplace_append_self (old new rest : Str) (h : old ≠ []) :
    strReplace (old ++ rest) old new = new ++ strReplace rest old new := by
  cases old with
  | nil => exact absurd rfl h
  | cons o os =>
    simp only [strReplace, List.isEmpty_cons, Bool.false_eq_true, if_false]
    rw [List.cons_append, replGo_zero_cons]
    have hp : (o :: os).isPrefixOf (o :: (os ++ rest)) = true := by
      have := isPrefixOf_append_self (o :: os) rest
      rwa [List.cons_append] at this
    rw [hp, if_pos rfl]
    have hl : (o :: os).length - 1 = os.length := by simp
    rw [hl, replGo_skip]

theorem replGo_no_occur (old new : Str) :
    ∀ s : Str, containsSub s old = false → replGo old new 0 s = s := by
  intro s
  induction s with
  | nil => intro _; rfl
  | cons c cs ih =>
    intro hc
    simp only [containsSub, Bool.or_eq_false_iff] at hc
    rw [replGo_zero_cons, hc.1, if_neg (by simp), ih hc.2]

/-- If the pattern does not occur in `s`, replacement is the identity. -/
theorem strReplace_no_occur (s old new : Str) (h : old ≠ [])
    (hc : containsSub s old = false) : strReplace s old new = s := by
  have he : old.isEmpty = false := by cases old with
    | nil => exact absurd rfl h
    | cons _ _ => rfl
  simp only [strReplace, he, Bool.false_eq_true, if_false]
  exact replGo_no_occur old new s hc

/-- Replacement of a single-character pattern acts characterwise. -/
theorem strReplace_single (c : Char) (new : Str) :
    ∀ s : Str, strReplace s [c] new
      = s.flatMap (fun x => if x = c then new else [x]) := by
  have he : ([c] : Str).isEmpty = false := rfl
  intro s
  induction s with
  | nil => simp [strReplace, he, replGo_nil]
  | cons x cs ih =>
    simp only [strReplace, he, Bool.false_eq_true, if_false] at ih ⊢
    rw [replGo_zero_cons]
    by_cases hx : x = c
    · subst hx
      have hp : ([x] : Str).isPrefixOf (x :: cs) = true := by
        simp [List.isPrefixOf]
      rw [hp, if_pos rfl]
      simp [ih]
    · have hp : ([c] : Str).isPrefixOf (x :: cs) = false := by
        simp [List.isPrefixOf]
        exact fun hcx => absurd hcx.symm hx
      rw [hp, if_neg (by simp), ih]
      simp [hx]

theorem splitSlash_ne_nil (s : Str) : splitSlash s ≠ [] := by
  cases s with
  | nil => simp [splitSlash]
  | cons c cs =>
    simp only [splitSlash]
    by_cases h : c = '/'
    · simp [h]
    · simp only [h, Bool.false_eq_true, if_false]
      cases hs : splitSlash cs <;> simp

theorem splitSlash_cons (c : Char) (cs : Str) :
    splitSlash (c :: cs) =
      if c = '/' then [] :: splitSlash cs
      else
        match splitSlash cs with
        | [] => [[c]]
        | p :: ps => (c :: p) :: ps := rfl

/-- Splitting distributes over an appended separator. -/
theorem splitSlash_append (xs ys : Str) :
    splitSlash (xs ++ '/' :: ys) = splitSlash xs ++ splitSlash ys := by
  induction xs with
  | nil => simp [splitSlash]
  | cons c cs ih =>
    rw [List.cons_append]
    simp only [splitSlash_cons]
    by_cases h : c = '/'
    · simp [h, ih]
    · have hne := splitSlash_ne_nil cs
      cases hs : splitSlash cs with
      | nil => exact absurd hs hne
      | cons p ps =>
        rw [if_neg h, if_neg h, ih, hs]
        simp

theorem flatMap_single_length_ge (c : Char) (new : Str) (hn : new ≠ []) :
    ∀ s : Str,
      s.length ≤ (s.flatMap (fun x => if x = c then new else [x])).length := by
  intro s
  induction s with
  | nil => simp
  | cons x cs ih =>
    have hn1 : 1 ≤ new.length := List.length_pos.mpr hn
    rw [List.flatMap_cons, List.length_append, List.length_cons]
    by_cases hx : x = c
    · rw [if_pos hx]; omega
    · rw [if_neg hx, List.length_singleton]; omega

theorem shlexQuote_length_ge (s : Str) : s.length ≤ (shlexQuote s).length := by
  by_cases h0 : s = []
  · subst h0; simp [shlexQuote]
  · by_cases h1 : s.all shlexSafe
    · simp [shlexQuote, h0, h1]
    · simp only [shlexQuote, h0, h1, Bool.false_eq_true, if_false]
      rw [strReplace_single]
      have := flatMap_single_length_ge squo shlexEscape (by decide) s
      simp only [List.length_cons, List.length_append, List.length_singleton]
      omega

/-- A string that needs quoting grows by at least the two wrapping quotes. -/
theorem shlexQuote_length_gt (s : Str) (h : s.all shlexSafe = false) :
    s.length + 2 ≤ (shlexQuote s).length := by
  have h0 : s ≠ [] := by
    intro he; subst he; simp at h
  simp only [shlexQuote, h0, h, Bool.false_eq_true, if_false]
  rw [strReplace_single]
  have := flatMap_single_length_ge squo shlexEscape (by decide) s
  simp only [List.length_cons, List.length_append, List.length_singleton]
  omega

/-- Quoting a string that needs quoting changes it. -/
theorem shlexQuote_ne_of_unsafe (s : Str) (h : s.all shlexSafe = false) :
    shlexQuote s ≠ s := by
  intro he
  have hlen := shlexQuote_length_gt s h
  rw [he] at hlen
  omega

/-- Quoting twice a string that needs quoting does not return the string. -/
theorem shlexQuote_twice_ne_of_unsafe (s : Str) (h : s.all shlexSafe = false) :
    shlexQuote (shlexQuote s) ≠ s := by
  intro he
  have h1 := shlexQuote_length_gt s h
  have h2 := shlexQuote_length_ge (shlexQuote s)
  rw [he] at h2
  omega

theorem nil_isPrefixOf (t : Str) : ([] : Str).isPrefixOf t = true := by
  cases t <;> rfl

/-- Joining a non-absolute multi-character fragment is joining its first
character and appending the rest. -/
theorem pyJoin_cons_notslash (a : Str) (c : Char) (t : Str) (hc : c ≠ '/') :
    pyJoin a (c :: t) = pyJoin a [c] ++ t := by
  have hcb : ('/' == c) = false := by
    simp only [beq_eq_false_iff_ne, ne_eq]
    exact fun he => hc he.symm
  have h1 : (['/'] : Str).isPrefixOf (c :: t) = false := by
    simp [List.isPrefixOf, hcb]
  have h2 : (['/'] : Str).isPrefixOf [c] = false := by
    simp [List.isPrefixOf, hcb]
  simp only [pyJoin, h1, h2, Bool.false_eq_true, if_false]
  by_cases h : a = [] ∨ (['/'] : Str).isSuffixOf a
  · rw [if_pos h, if_pos h, List.append_cons]
  · rw [if_neg h, if_neg h]
    simp

/-- Appending anything after the home prefix `/c...` (with `c ≠ '/'`) keeps
the path root at a single slash. -/
theorem posixRoot_home (c : Char) (hrest t : Str) (hc : c ≠ '/') :
    posixRoot (('/' :: c :: hrest) ++ t) = ['/'] := by
  have hcb : ('/' == c) = false := by
    simp only [beq_eq_false_iff_ne, ne_eq]
    exact fun he => hc he.symm
  simp [posixRoot, List.isPrefixOf, hcb]

/-- Collapsing a doubled separator after a normal absolute prefix does not
change the normalized path. -/
theorem pathOf_double_slash (c : Char) (hrest rel : Str) (hc : c ≠ '/') :
    pathOf (('/' :: c :: hrest) ++ '/' :: '/' :: rel)
      = pathOf (('/' :: c :: hrest) ++ '/' :: rel) := by
  unfold pathOf
  rw [posixRoot_home c hrest _ hc, posixRoot_home c hrest _ hc]
  have hparts : posixParts (('/' :: c :: hrest) ++ '/' :: '/' :: rel)
      = posixParts (('/' :: c :: hrest) ++ '/' :: rel) := by
    unfold posixParts
    rw [splitSlash_append, splitSlash_append]
    simp only [List.filter_append]
    rw [splitSlash_cons, if_pos rfl]
    simp [List.filter]
  rw [hparts]

theorem lexLe_total (a : Str) : ∀ b : Str, lexLe a b = false → lexLe b a = true := by
  induction a with
  | nil => intro b h; simp [lexLe] at h
  | cons x xs ih =>
    intro b h
    cases b with
    | nil => rfl
    | cons y ys =>
      simp only [lexLe] at h ⊢
      by_cases h1 : x < y
      · simp [h1] at h
      · by_cases h2 : y < x
        · simp [h1, h2] at h ⊢
        · simp only [h1, h2, if_false] at h ⊢
          exact ih ys h

/-! ## Claim C1: the absolute-path encode/decode round trip -/

/-- C1: for every absolute path `P` (beginning with `/`), encoding it for the
backup tree — replacing the leading `/` by the sentinel `:` and joining to
the backup root (reinstall.py lines 46-49) — and then decoding the resulting
source path — stripping the `BackupRoot + ":"` prefix and prepending a
single `/` (lines 63-65) — reproduces `P` exactly. -/
theorem c1_absolute_roundtrip (dotsPath homePath P : Str)
    (h : (['/'] : Str).isPrefixOf P = true) :
    destStr dotsPath homePath (pyJoin dotsPath (encodeDot P)) = P := by
  cases P with
  | nil => simp [List.isPrefixOf] at h
  | cons c t =>
    simp only [List.isPrefixOf, Bool.and_eq_true, beq_iff_eq] at h
    obtain ⟨hc, -⟩ := h
    subst hc
    have he : encodeDot ('/' :: t) = ':' :: t := by
      simp [encodeDot, List.isPrefixOf, nil_isPrefixOf]
    rw [he, pyJoin_cons_notslash dotsPath ':' t (by decide)]
    simp [destStr, isPrefixOf_append_self, List.drop_left]

/-- Witness for C1 at `BackupRoot = /backup`, `P = /etc/hosts`. -/
theorem c1_absolute_roundtrip_witness :
    (['/'] : Str).isPrefixOf ("/etc/hosts").toList = true ∧
    destStr ("/backup").toList ("/home/u").toList
        (pyJoin ("/backup").toList (encodeDot ("/etc/hosts").toList))
      = ("/etc/hosts").toList :=
  ⟨by decide, c1_absolute_roundtrip _ _ _ (by decide)⟩

/-! ## Claim C2: home-relative destinations -/

/-- C2 as stated is false: `dest = source.replace(dots_path, home_path + "/")`
(line 68) replaces every occurrence of the backup root, not only the prefix.
With BackupRoot `/b`, HomeRoot `/h`, and the discovered source `/b/x/b`
(whose BackupRoot-relative path `x/b` does not begin with the sentinel `:`),
the computed destination path is `/h/x/h`, not `HomeRoot + /x/b = /h/x/b`. -/
theorem c2_counterexample :
    (pyJoin ("/b").toList [':']).isPrefixOf ("/b/x/b").toList = false ∧
    ("/b").toList.isPrefixOf ("/b/x/b").toList = true ∧
    pathOf (destStr ("/b").toList ("/h").toList ("/b/x/b").toList)
      = ("/h/x/h").toList ∧
    pathOf (destStr ("/b").toList ("/h").toList ("/b/x/b").toList)
      ≠ pathOf (("/h").toList ++ ("/x/b").toList) :=
  ⟨by decide, by decide, by decide, by decide⟩

/-- C2 (amended): for a discovered source `BackupRoot ++ "/" ++ rel` whose
BackupRoot-relative path does not begin with the sentinel `:`, and in which
the BackupRoot string does not occur again after the prefix, the destination
computed by `reinstall_dots_sb` equals — as a `Path`, i.e. after pathlib's
separator normalization — `HomeRoot + (source with the BackupRoot prefix
stripped)`, preserving all nested subdirectory structure.  (The raw string
contains a doubled separator, collapsed by `Path`.)  HomeRoot is assumed to
be a normal absolute path `/c...` with `c ≠ '/'`. -/
theorem c2_amended_dest (dotsPath homePath rel hrest : Str) (c : Char)
    (hdots : dotsPath ≠ [])
    (hhome : homePath = '/' :: c :: hrest) (hc : c ≠ '/')
    (hsent : (pyJoin dotsPath [':']).isPrefixOf (dotsPath ++ '/' :: rel) = false)
    (hno : containsSub ('/' :: rel) dotsPath = false) :
    pathOf (destStr dotsPath homePath (dotsPath ++ '/' :: rel))
      = pathOf (homePath ++ '/' :: rel) := by
  have h1 : destStr dotsPath homePath (dotsPath ++ '/' :: rel)
      = homePath ++ '/' :: '/' :: rel := by
    simp only [destStr, hsent, Bool.false_eq_true, if_false]
    rw [strReplace_append_self _ _ _ hdots,
      strReplace_no_occur _ _ _ hdots hno]
    simp
  rw [h1, hhome]
  exact pathOf_double_slash c hrest rel hc

/-- Witness for the amended C2 at the spec's example:
`/backup/.vimrc` maps to `/home/u/.vimrc`. -/
theorem c2_amended_dest_witness :
    pathOf (destStr ("/backup").toList ("/home/u").toList
        (("/backup").toList ++ '/' :: (".vimrc").toList))
      = pathOf (("/home/u").toList ++ '/' :: (".vimrc").toList) :=
  c2_amended_dest ("/backup").toList ("/home/u").toList (".vimrc").toList
    ("ome/u").toList 'h' (by decide) (by decide) (by decide) (by decide)
    (by decide)

/-! ## Claim C3: dry-run performs no mutation -/

/-- In dry-run the copy loop only reports each pair and changes nothing. -/
theorem copyLoop_dryRun (env : DotsEnv) :
    ∀ (pairs : List (Str × Str)) (st : DotsState),
      copyLoop env true pairs st
        = Except.ok { st with
            events := st.events ++ pairs.map (fun p => Event.dryRunCopy p.1 p.2) } := by
  intro pairs
  induction pairs with
  | nil => intro st; simp [copyLoop]
  | cons p ps ih =>
    intro st
    simp [copyLoop, copyPairStep, ih]

/-- C3: in dry-run mode `reinstall_dots_sb` emits exactly one report per
resolved pair and nothing else — no mkdir, no copy, no command — with the
error counter 0 and the permission-error set empty for the whole run, and an
empty end-of-batch report; likewise the package phase's
`run_cmd_if_no_dry_run` only prints the command and returns 0. -/
theorem c3_dry_run_frame (cEnv : CollectEnv) (dEnv : DotsEnv)
    (dotsPath homePath : Str) (config : List (Str × DotRule))
    (runRes : Str → Int) (cmd : Str) :
    reinstall_dots_sb cEnv dEnv dotsPath homePath config true
      = Except.ok
          ⟨(resolvePairs dotsPath homePath (dotfilesToReinstall cEnv dotsPath config)).map
              (fun p => Event.dryRunCopy p.1 p.2), 0, []⟩
    ∧ ((resolvePairs dotsPath homePath (dotfilesToReinstall cEnv dotsPath config)).map
          (fun p => Event.dryRunCopy p.1 p.2)).all (fun e => !(isMutation e)) = true
    ∧ dotsReport
        ⟨(resolvePairs dotsPath homePath (dotfilesToReinstall cEnv dotsPath config)).map
            (fun p => Event.dryRunCopy p.1 p.2), 0, []⟩ = []
    ∧ runCmdIfNoDryRun runRes cmd true
        = ([Event.printYellowBold ('$' :: ' ' :: cmd)], 0) := by
  refine ⟨?_, ?_, ?_, rfl⟩
  · unfold reinstall_dots_sb
    rw [copyLoop_dryRun]
    simp [dotsReport]
  · simp only [List.all_eq_true]
    intro e he
    obtain ⟨p, -, rfl⟩ := List.mem_map.1 he
    rfl
  · simp [dotsReport]

/-! ## Claim C4: destination parent is a file -/

/-- C4: when the destination's parent path is (per the filesystem) a regular
file, the pair is rejected: the error counter is incremented by exactly 1, a
diagnostic naming the conflicting parent and the destination is emitted, the
diagnostic is the only event added (in particular no copy is attempted), and
the loop goes on to process the remaining pairs of the batch. -/
theorem c4_parent_is_file (env : DotsEnv) (st : DotsState) (src dst : Str)
    (rest : List (Str × Str)) (h : env.isFile (pathParent dst) = true) :
    copyPairStep env false st (src, dst)
      = Except.ok { st with
          events := st.events ++ [Event.structuralError (pathParent dst) dst],
          errorCount := st.errorCount + 1 }
    ∧ copyLoop env false ((src, dst) :: rest) st
      = copyLoop env false rest { st with
          events := st.events ++ [Event.structuralError (pathParent dst) dst],
          errorCount := st.errorCount + 1 }
    ∧ isMutation (Event.structuralError (pathParent dst) dst) = false := by
  refine ⟨?_, ?_, rfl⟩
  · simp [copyPairStep, h]
  · simp [copyLoop, copyPairStep, h]

/-- Witness for C4: one conflicting pair on a filesystem whose every path is
a file. -/
theorem c4_parent_is_file_witness :
    copyPairStep ⟨fun _ => true, fun _ _ => CopyOutcome.ok, fun s => s⟩ false
        ⟨[], 0, []⟩ (("a").toList, ("b").toList)
      = Except.ok ⟨[Event.structuralError ['.'] ("b").toList], 1, []⟩ := by
  have h := c4_parent_is_file ⟨fun _ => true, fun _ _ => CopyOutcome.ok, fun s => s⟩
    ⟨[], 0, []⟩ ("a").toList ("b").toList [] rfl
  exact h.1.trans rfl

/-! ## Claim C5: which copy failures are absorbed -/

/-- C5: in the copy loop a permission-denied failure adds the reported path
to the permission-error set and the batch continues; a source-vanished
failure prints the error and the batch continues; a successful copy
continues; any other failure is not caught and aborts the loop — exactly
`PermissionError` and `FileNotFoundError` are absorbed per pair. -/
theorem c5_absorbed_errors (env : DotsEnv) (st : DotsState) (src dst : Str)
    (rest : List (Str × Str)) (h : env.isFile (pathParent dst) = false) :
    (∀ f, env.copyOutcome src dst = CopyOutcome.permError f →
      copyLoop env false ((src, dst) :: rest) st
        = copyLoop env false rest { st with
            events := st.events ++
              [Event.mkdirCall (pathParent dst), Event.copyAttempt src dst],
            permErrors := setAdd st.permErrors (env.findPathForReport f) })
    ∧ (∀ m, env.copyOutcome src dst = CopyOutcome.notFound m →
      copyLoop env false ((src, dst) :: rest) st
        = copyLoop env false rest { st with
            events := st.events ++
              [Event.mkdirCall (pathParent dst), Event.copyAttempt src dst,
               Event.printRedBold (("ERROR: ").toList ++ m)] })
    ∧ (∀ e, env.copyOutcome src dst = CopyOutcome.otherError e →
      copyLoop env false ((src, dst) :: rest) st
        = Except.error (e, { st with
            events := st.events ++
              [Event.mkdirCall (pathParent dst), Event.copyAttempt src dst] }))
    ∧ (env.copyOutcome src dst = CopyOutcome.ok →
      copyLoop env false ((src, dst) :: rest) st
        = copyLoop env false rest { st with
            events := st.events ++
              [Event.mkdirCall (pathParent dst), Event.copyAttempt src dst] }) := by
  refine ⟨?_, ?_, ?_, ?_⟩
  · intro f hf; simp [copyLoop, copyPairStep, h, hf]
  · intro m hm; simp [copyLoop, copyPairStep, h, hm]
  · intro e he; simp [copyLoop, copyPairStep, h, he]
  · intro hok; simp [copyLoop, copyPairStep, h, hok]

/-- Witness for C5: an uncaught failure aborts the batch after the mkdir and
the copy attempt. -/
theorem c5_absorbed_errors_witness :
    copyLoop ⟨fun _ => false, fun _ _ => CopyOutcome.otherError ("boom").toList,
        fun s => s⟩ false [(("a").toList, ("b").toList)] ⟨[], 0, []⟩
      = Except.error (("boom").toList,
          ⟨[Event.mkdirCall ['.'], Event.copyAttempt ("a").toList ("b").toList],
           0, []⟩) := by
  have h := c5_absorbed_errors
    ⟨fun _ => false, fun _ _ => CopyOutcome.otherError ("boom").toList, fun s => s⟩
    ⟨[], 0, []⟩ ("a").toList ("b").toList [] rfl
  exact (h.2.2.1 ("boom").toList rfl).trans rfl

/-! ## Claim C6: two permission errors -/

/-- The reported permission-error paths produced by a batch, in batch
order: for each pair whose copy raises `PermissionError`, the path passed to
the set (`find_path_for_permission_error_reporting(err.filename)`). -/
def permPaths (env : DotsEnv) (pairs : List (Str × Str)) : List Str :=
  pairs.filterMap (fun p =>
    match env.copyOutcome p.1 p.2 with
    | CopyOutcome.permError f => some (env.findPathForReport f)
    | _ => none)

/-- A batch with no structural conflicts and no uncaught copy failure runs
to completion, keeps the error counter, and folds every reported
permission-error path into the set. -/
theorem copyLoop_noAbort (env : DotsEnv) :
    ∀ (pairs : List (Str × Str)) (st : DotsState),
      (∀ p ∈ pairs, env.isFile (pathParent p.2) = false) →
      (∀ p ∈ pairs, ∀ e, env.copyOutcome p.1 p.2 ≠ CopyOutcome.otherError e) →
      ∃ evs, copyLoop env false pairs st
        = Except.ok ⟨st.events ++ evs, st.errorCount,
            List.foldl setAdd st.permErrors (permPaths env pairs)⟩ := by
  intro pairs
  induction pairs with
  | nil =>
    intro st _ _
    exact ⟨[], by simp [copyLoop, permPaths]⟩
  | cons p ps ih =>
    intro st h1 h2
    have hp1 : env.isFile (pathParent p.2) = false := h1 p (List.mem_cons_self p ps)
    have h1' : ∀ q ∈ ps, env.isFile (pathParent q.2) = false :=
      fun q hq => h1 q (List.mem_cons_of_mem p hq)
    have h2' : ∀ q ∈ ps, ∀ e, env.copyOutcome q.1 q.2 ≠ CopyOutcome.otherError e :=
      fun q hq => h2 q (List.mem_cons_of_mem p hq)
    cases ho : env.copyOutcome p.1 p.2 with
    | ok =>
      obtain ⟨evs, he⟩ := ih
        { st with events := st.events ++
            [Event.mkdirCall (pathParent p.2), Event.copyAttempt p.1 p.2] } h1' h2'
      refine ⟨[Event.mkdirCall (pathParent p.2), Event.copyAttempt p.1 p.2] ++ evs, ?_⟩
      simp only [copyLoop, copyPairStep, hp1, Bool.false_eq_true, if_false, ho]
      rw [he]
      simp [permPaths, ho]
    | permError f =>
      obtain ⟨evs, he⟩ := ih
        { st with
          events := st.events ++
            [Event.mkdirCall (pathParent p.2), Event.copyAttempt p.1 p.2],
          permErrors := setAdd st.permErrors (env.findPathForReport f) } h1' h2'
      refine ⟨[Event.mkdirCall (pathParent p.2), Event.copyAttempt p.1 p.2] ++ evs, ?_⟩
      simp only [copyLoop, copyPairStep, hp1, Bool.false_eq_true, if_false, ho]
      rw [he]
      simp [permPaths, ho]
    | notFound m =>
      obtain ⟨evs, he⟩ := ih
        { st with events := st.events ++
            [Event.mkdirCall (pathParent p.2), Event.copyAttempt p.1 p.2] ++
            [Event.printRedBold (("ERROR: ").toList ++ m)] } h1' h2'
      refine ⟨[Event.mkdirCall (pathParent p.2), Event.copyAttempt p.1 p.2,
        Event.printRedBold (("ERROR: ").toList ++ m)] ++ evs, ?_⟩
      simp only [copyLoop, copyPairStep, hp1, Bool.false_eq_true, if_false, ho]
      rw [he]
      simp [permPaths, ho]
    | otherError e => exact absurd ho (h2 p (List.mem_cons_self p ps) e)

/-- C6: if in a non-dry-run batch with no structural conflicts exactly two
pairs fail with permission-denied and their reported paths `a ≠ b` are
distinct (every other pair succeeding or hitting a missing source), then the
batch completes without aborting, the final permission-error set is exactly
`{a, b}` (2 entries, error counter untouched), and the report emits the size
2 followed by the offending paths sorted lexicographically. -/
theorem c6_two_permission_errors (env : DotsEnv) (pairs : List (Str × Str))
    (a b : Str)
    (hAll : ∀ p ∈ pairs, env.isFile (pathParent p.2) = false)
    (hNoOther : ∀ p ∈ pairs, ∀ e, env.copyOutcome p.1 p.2 ≠ CopyOutcome.otherError e)
    (hPerm : permPaths env pairs = [a, b]) (hab : a ≠ b) :
    ∃ evs, copyLoop env false pairs ⟨[], 0, []⟩ = Except.ok ⟨evs, 0, [a, b]⟩
      ∧ [a, b].length = 2
      ∧ dotsReport ⟨evs, 0, [a, b]⟩
          = [Event.permSummary 2, Event.printListPretty (sortLex [a, b])]
      ∧ (sortLex [a, b]).Pairwise (fun x y => lexLe x y = true) := by
  obtain ⟨evs, he⟩ := copyLoop_noAbort env pairs ⟨[], 0, []⟩ hAll hNoOther
  rw [hPerm] at he
  have hfold : List.foldl setAdd [] [a, b] = [a, b] := by
    have hba : (b = a) = False := by
      simp only [eq_iff_iff, iff_false]
      exact fun hb => hab hb.symm
    simp [setAdd, hba]
  refine ⟨evs, ?_, rfl, ?_, ?_⟩
  · rw [hfold] at he
    simpa using he
  · simp [dotsReport]
  · by_cases hle : lexLe a b = true
    · simp [sortLex, insertLex, hle]
    · have hba := lexLe_total a b (Bool.not_eq_true (lexLe a b) ▸ hle)
      simp [sortLex, insertLex, hle, hba]

/-- Witness for C6: two pairs, each failing with `PermissionError` on its
own source path. -/
theorem c6_two_permission_errors_witness :
    ∃ evs, copyLoop
        (⟨fun _ => false, fun s _ => CopyOutcome.permError s, fun s => s⟩ : DotsEnv)
        false [(("pb").toList, ("d1").toList), (("pa").toList, ("d2").toList)]
        ⟨[], 0, []⟩
      = Except.ok ⟨evs, 0, [("pb").toList, ("pa").toList]⟩
      ∧ [("pb").toList, ("pa").toList].length = 2
      ∧ dotsReport ⟨evs, 0, [("pb").toList, ("pa").toList]⟩
          = [Event.permSummary 2,
             Event.printListPretty (sortLex [("pb").toList, ("pa").toList])]
      ∧ (sortLex [("pb").toList, ("pa").toList]).Pairwise
          (fun x y => lexLe x y = true) :=
  c6_two_permission_errors
    ⟨fun _ => false, fun s _ => CopyOutcome.permError s, fun s => s⟩
    [(("pb").toList, ("d1").toList), (("pa").toList, ("d2").toList)]
    ("pb").toList ("pa").toList
    (fun _ _ => rfl)
    (fun p _ e h => CopyOutcome.noConfusion h)
    (by decide) (by decide)

/-! ## Claim C7: package manager recognition -/

/-- Modelled from the spec (the derivation rule asserted by claim C7): the
filename's leading token before the first occurrence of `_` or `-`. -/
def specLeadingToken (f : Str) : Str :=
  f.takeWhile (fun c => !(c == '_') && !(c == '-'))

theorem flatMap_if_singleton (t : Str) :
    t.flatMap (fun x => if x = '-' then [' '] else [x])
      = t.map (fun x => if x = '-' then ' ' else x) := by
  induction t with
  | nil => rfl
  | cons x xs ih => by_cases hx : x = '-' <;> simp [hx, ih]

/-- `.replace("-", " ")` acts characterwise. -/
theorem strReplace_dash (t : Str) :
    strReplace t ['-'] [' '] = t.map (fun x => if x = '-' then ' ' else x) :=
  (strReplace_single '-' [' '] t).trans (flatMap_if_singleton t)

/-- A string whose dash-to-space image avoids spaces is fixed by the map. -/
theorem map_dash_eq_self : ∀ (m t : Str), (∀ c ∈ m, c ≠ ' ') →
    t.map (fun x => if x = '-' then ' ' else x) = m → t = m := by
  intro m
  induction m with
  | nil =>
    intro t _ h
    cases t with
    | nil => rfl
    | cons x xs => simp at h
  | cons y ys ih =>
    intro t hm h
    cases t with
    | nil => simp at h
    | cons x xs =>
      simp only [List.map_cons, List.cons.injEq] at h
      obtain ⟨h1, h2⟩ := h
      have hy : y ≠ ' ' := hm y (List.mem_cons_self _ _)
      have hx : x = y := by
        by_cases hd : x = '-'
        · rw [if_pos hd] at h1
          exact absurd h1 (fun he => hy he.symm)
        · rwa [if_neg hd] at h1
      rw [hx, ih xs (fun c hc => hm c (List.mem_cons_of_mem _ hc)) h2]

/-- C7 fails as stated: for the packages-directory filename
`brew-x_list.txt`, the leading token before the first `_` or `-` is `brew`,
which is in the recognized set, so per the claim a command would be issued;
but the code takes the token before the first `_` only (`brew-x`), replaces
`-` by a space (`brew x`), finds it in no manager name, and recognizes
nothing: no manager is collected and no command is produced. -/
theorem c7_counterexample :
    specLeadingToken ("brew-x_list.txt").toList = ("brew").toList ∧
    ("brew").toList ∈ managerNames ∧
    packageMgrs [("brew-x_list.txt").toList] = [] ∧
    reinstall_packages_sb (fun _ => 0) [] ("/p").toList false
        [("brew-x_list.txt").toList] = [] :=
  ⟨by decide, by decide, by decide, rfl⟩

/-- C7 (amended): the identifier tested is the filename's leading token
before the first `_` with every `-` replaced by a space; since no manager
name contains a space or a dash, a manager is recognized exactly when the
raw pre-`_` token itself is one of
`gem, cargo, npm, pip, pip3, brew, vscode, macports`.  In particular, for
files `brew_list.txt` and `unknownmgr_list.txt`, exactly `brew` is
recognized and its bundle-install command is run once, and the unrecognized
file produces no command and no error. -/
theorem c7_amended_recognition :
    (∀ f : Str, mgrForCheck f ∈ managerNames ↔ mgrToken f ∈ managerNames)
    ∧ packageMgrs [("brew_list.txt").toList, ("unknownmgr_list.txt").toList]
        = [("brew").toList]
    ∧ ∀ runRes : Str → Int,
        reinstall_packages_sb runRes [] ("/p").toList false
            [("brew_list.txt").toList, ("unknownmgr_list.txt").toList]
          = [Event.pkgMgrReinstall ("brew").toList,
             Event.runCmd
               ("brew bundle install --no-lock --file /p/brew_list.txt").toList] := by
  refine ⟨?_, by decide, fun runRes => rfl⟩
  intro f
  have hmap : mgrForCheck f
      = (mgrToken f).map (fun x => if x = '-' then ' ' else x) :=
    strReplace_dash (mgrToken f)
  constructor
  · intro h
    have hall : ∀ m ∈ managerNames, ∀ c ∈ m, c ≠ ' ' := by decide
    have ht : mgrToken f = mgrForCheck f :=
      map_dash_eq_self (mgrForCheck f) (mgrToken f) (hall _ h) hmap.symm
    rw [ht]
    exact h
  · intro h
    have hfix : ∀ m ∈ managerNames,
        m.map (fun x => if x = '-' then ' ' else x) = m := by decide
    rw [hmap, hfix (mgrToken f) h]
    exact h

/-! ## Claim C8: a false reinstall condition skips the rule entirely -/

/-- C8: a rule whose reinstall condition evaluates false is dropped before
any encoding, joining, or tree expansion: removing it from the config leaves
the collected source list, the resolved pair list, and the entire
`reinstall_dots_sb` run — its events included — unchanged. -/
theorem c8_condition_skip (cEnv : CollectEnv) (dEnv : DotsEnv)
    (dotsPath homePath idPath : Str) (rule : DotRule)
    (pre post : List (Str × DotRule)) (dryRun : Bool)
    (h : cEnv.evalCondition (rule.reinstall_condition.getD []) idPath = false) :
    dotfilesToReinstall cEnv dotsPath (pre ++ (idPath, rule) :: post)
      = dotfilesToReinstall cEnv dotsPath (pre ++ post)
    ∧ resolvePairs dotsPath homePath
        (dotfilesToReinstall cEnv dotsPath (pre ++ (idPath, rule) :: post))
      = resolvePairs dotsPath homePath
        (dotfilesToReinstall cEnv dotsPath (pre ++ post))
    ∧ reinstall_dots_sb cEnv dEnv dotsPath homePath (pre ++ (idPath, rule) :: post) dryRun
      = reinstall_dots_sb cEnv dEnv dotsPath homePath (pre ++ post) dryRun := by
  have h1 : dotfilesToReinstall cEnv dotsPath (pre ++ (idPath, rule) :: post)
      = dotfilesToReinstall cEnv dotsPath (pre ++ post) := by
    unfold dotfilesToReinstall
    rw [List.foldl_append, List.foldl_append, List.foldl_cons]
    congr 1
    simp [collectStep, h]
  exact ⟨h1, by rw [h1], by unfold reinstall_dots_sb; rw [h1]⟩

/-- Witness for C8: a one-rule config whose condition evaluator always
refuses. -/
theorem c8_condition_skip_witness :
    dotfilesToReinstall ⟨fun _ _ => false, fun _ => true, fun _ => []⟩
        ("/b").toList [((".vimrc").toList, ⟨some ("false").toList⟩)]
      = dotfilesToReinstall ⟨fun _ _ => false, fun _ => true, fun _ => []⟩
        ("/b").toList [] :=
  (c8_condition_skip ⟨fun _ _ => false, fun _ => true, fun _ => []⟩
    ⟨fun _ => false, fun _ _ => CopyOutcome.ok, fun s => s⟩
    ("/b").toList ("/h").toList (".vimrc").toList ⟨some ("false").toList⟩
    [] [] false rfl).1

/-! ## Claim C9: font copy arguments are quoted -/

/-- C9 fails as stated: the destination argument of `copyfile` is not the
shlex-quoted form of the real destination path — `dest_path` is already
quoted when constructed (line 120) and is quoted again at the call
(line 124).  For fonts directory `/f` and font `a b.ttf` the argument is the
doubly quoted string, which differs from `shlex.quote("/f/a b.ttf")`. -/
theorem c9_counterexample :
    fontStep ("/f").toList false ("a b.ttf").toList
      = [Event.copyFileCall (shlexQuote ("a b.ttf").toList)
          (shlexQuote (shlexQuote ("/f/a b.ttf").toList))]
    ∧ shlexQuote (shlexQuote ("/f/a b.ttf").toList)
        ≠ shlexQuote ("/f/a b.ttf").toList :=
  ⟨by decide, by decide⟩

/-- C9 (amended): `copyfile` receives the shlex-quoted font as source and
the twice-quoted joined destination; hence whenever the font path (resp. the
real destination path) contains a character that quoting wraps, the argument
handed to the copy differs from the real path — the copy operates on a
quoted string as a literal filesystem path. -/
theorem c9_amended_quoting (fontsDir font : Str) :
    fontStep fontsDir false font
      = [Event.copyFileCall (shlexQuote font)
          (shlexQuote (shlexQuote (pyJoin fontsDir (lastSlashComponent font))))]
    ∧ (font.all shlexSafe = false → shlexQuote font ≠ font)
    ∧ ((pyJoin fontsDir (lastSlashComponent font)).all shlexSafe = false →
        shlexQuote (shlexQuote (pyJoin fontsDir (lastSlashComponent font)))
          ≠ pyJoin fontsDir (lastSlashComponent font)) :=
  ⟨rfl, shlexQuote_ne_of_unsafe font,
   shlexQuote_twice_ne_of_unsafe (pyJoin fontsDir (lastSlashComponent font))⟩

/-- Witness for the amended C9 at the font `a b.ttf`. -/
theorem c9_amended_quoting_witness :
    fontStep ("/f").toList false ("a b.ttf").toList
      = [Event.copyFileCall (shlexQuote ("a b.ttf").toList)
          (shlexQuote (shlexQuote
            (pyJoin ("/f").toList (lastSlashComponent ("a b.ttf").toList))))]
    ∧ shlexQuote ("a b.ttf").toList ≠ ("a b.ttf").toList
    ∧ shlexQuote (shlexQuote
          (pyJoin ("/f").toList (lastSlashComponent ("a b.ttf").toList)))
        ≠ pyJoin ("/f").toList (lastSlashComponent ("a b.ttf").toList) := by
  have h := c9_amended_quoting ("/f").toList ("a b.ttf").toList
  exact ⟨h.1, h.2.1 (by decide), h.2.2 (by decide)⟩

/-! ## Claim C10: config source tested in quoted form -/

/-- C10: in `reinstall_configs_sb` the assembled source path is shlex-quoted
before the is-directory/is-file tests, so the tests consult the quoted
string — a path different from the assembled one whenever quoting is
required; and whenever both tests on that quoted path fail, the entry is
silently skipped: no copy event and no error event are produced. -/
theorem c10_config_quoted_tests (env : ConfigEnv) (configsPath dest loc : Str)
    (hq : (pyJoin configsPath loc).all shlexSafe = false)
    (hd : env.isDir (shlexQuote (pyJoin configsPath loc)) = false)
    (hf : env.isFile (shlexQuote (pyJoin configsPath loc)) = false) :
    configStep env configsPath false (dest, loc) = []
    ∧ shlexQuote (pyJoin configsPath loc) ≠ pyJoin configsPath loc := by
  constructor
  · simp [configStep, hd, hf]
  · exact shlexQuote_ne_of_unsafe _ hq

/-- Witness for C10: a backup location containing a space, on a filesystem
where the quoted literal path does not exist. -/
theorem c10_config_quoted_tests_witness :
    configStep ⟨fun _ => false, fun _ => false⟩ ("/c").toList false
        (("dest").toList, ("a b").toList) = []
    ∧ shlexQuote (pyJoin ("/c").toList ("a b").toList)
        ≠ pyJoin ("/c").toList ("a b").toList :=
  c10_config_quoted_tests ⟨fun _ => false, fun _ => false⟩
    ("/c").toList ("dest").toList ("a b").toList (by decide) rfl rfl
